import Mathlib

/-!
Verification development for the bocoel embedding-index and evaluation-loop
core: a shallow embedding of the index construction, corpus composition,
iteration budget, bounds checking, evaluation bridge and the BigBench
multiple-choice adaptor, with theorems settling the specification's claims
about them.

Real-valued embeddings are idealised as lists of `ℝ`, logit values and
choice scores as rationals (the source operates on floating-point arrays);
machine lists/arrays become Lean lists. Definitions come first, theorems
after.
-/

namespace Bocoel

/-! ## Definitions -/

/-- Message of the `ValueError` raised by `check_bounds` on a malformed
bounds array. -/
def msgBoundInvalid : String := "The bound is not valid"

/-- Message of the `ValueError` raised by `check_bounds` when some lower
bound exceeds the upper bound. -/
def msgLowerUpper : String := "lower > upper at some points"

/-- Message of the `ValueError` numpy raises from `ndarray.item()` on an
array that does not hold exactly one element. -/
def msgItem : String := "can only convert an array of size 1 to a Python scalar"

/-- Message of the `IndexError` Python raises from `[0]` on an empty
sequence. -/
def msgIndexZero : String := "list index out of range"

/-- Message of the `ValueError` Python raises from `max()` on an empty
sequence. -/
def msgMaxEmpty : String := "max() arg is an empty sequence"

/-- Message of the `ValueError` Python raises from `min()` on an empty
sequence. -/
def msgMinEmpty : String := "min() arg is an empty sequence"

/-- Message of the `ValueError` raised by `_evaluate_batch` when the maximum
number of choices is zero. -/
def msgScoresEmpty : String := "Multiple choice scores must not be empty."

/-- Message of the `ValueError` raised by `_evaluate_batch` when the rows of
choice scores differ in length. -/
def msgSameChoices : String :=
  "Batched multiple choice scores only supports the same number of choices."

/-- Separator token of the default join of `ComposedCorpus.index_storage`. -/
def sepToken : String := " [SEP] "

/-- Newline separator used by `numeric_choices`. -/
def newlineStr : String := "\n"

/-- Prompt fragment appended by `numeric_choices` after the question. -/
def selectFromStr : String :=
  "\nSelect from one of the following (answer in number):\n"

/-- Empty string, the default used when reading an already-bounds-checked
column entry. -/
def emptyStr : String := ""

/-- Expected joined string of the C8 example. -/
def xSepY : String := "x [SEP] y"

/-- Errors raised by the modelled code. Python raises `ValueError` with a
message everywhere in the sources under study; the distinguished
constructors follow the spec's error taxonomy for operations whose bodies
are modelled from the spec. -/
inductive Err
  | valueError (msg : String)
  | invalidEmbedding
  | degenerateEmbedding
deriving DecidableEq

/-- Modelled from the spec: the distance metric. The enum
`bocoel.corpora.indices.interfaces.Distance` is not among the provided
sources; per the spec it is a closed enumeration with two variants,
EUCLIDEAN (named `L2` at the use sites in `hnswlib.py`) and INNER_PRODUCT. -/
inductive Distance
  | L2
  | INNER_PRODUCT
deriving DecidableEq

/-- Modelled from the spec: the metric's one derived behavior,
`requires_normalization`, is true for INNER_PRODUCT and false for
EUCLIDEAN. -/
def Distance.requiresNormalization : Distance → Bool
  | .INNER_PRODUCT => true
  | .L2 => false

/-- Modelled from the spec: `utils.validate_embeddings` (the module
`bocoel.corpora.indices.utils` is not among the provided sources) accepts an
embedding matrix that is two-dimensional (rectangular) and non-empty;
finiteness of entries is automatic for real scalars. -/
def validEmbeddings (m : List (List ℝ)) : Bool :=
  !m.isEmpty && decide (0 < (m.headD []).length) &&
    m.all (fun r => r.length == (m.headD []).length)

/-- L2 norm of one embedding row. -/
noncomputable def rowNorm (r : List ℝ) : ℝ :=
  Real.sqrt (r.map fun x => x ^ 2).sum

/-- Rescale of one row by its L2 norm. -/
noncomputable def normalizeRow (r : List ℝ) : List ℝ :=
  r.map fun x => x / rowNorm r

open Classical in
/-- Modelled from the spec: `utils.normalize` rescales every row to unit L2
norm; a zero-norm row is a fatal error (`DegenerateEmbeddingError`) since
its direction is undefined. -/
noncomputable def normalize (m : List (List ℝ)) : Except Err (List (List ℝ)) :=
  if ∃ r ∈ m, rowNorm r = 0 then .error .degenerateEmbedding
  else .ok (m.map normalizeRow)

/-- The `j`-th column of a row-major matrix. -/
def column (m : List (List ℝ)) (j : Nat) : List ℝ :=
  m.map fun r => r.getD j 0

/-- Minimum of a list (`0` on the empty list, which the call sites
exclude). -/
noncomputable def listMin : List ℝ → ℝ
  | [] => 0
  | x :: xs => xs.foldl min x

/-- Maximum of a list (`0` on the empty list, which the call sites
exclude). -/
noncomputable def listMax : List ℝ → ℝ
  | [] => 0
  | x :: xs => xs.foldl max x

/-- Modelled from the spec: `utils.boundaries` computes the per-dimension
min/max of the matrix as a D×2 array (column 0 the minimum, column 1 the
maximum). -/
noncomputable def boundaries (m : List (List ℝ)) : List (List ℝ) :=
  (List.range (m.headD []).length).map fun j =>
    [listMin (column m j), listMax (column m j)]

/-- The state an `HnswlibIndex.__init__` call constructs
(src/bocoel/corpora/indices/backend/hnswlib.py): the stored (possibly
rescaled) embeddings `_emb`, the parsed distance `_dist`, the computed
`_bounds`, and the `threads` hint. The native hnswlib graph is an external
capability and carries no further observable state of its own. -/
structure HnswlibIndex where
  emb : List (List ℝ)
  dist : Distance
  bounds : List (List ℝ)
  threads : Int

/-- Embedding of `HnswlibIndex.__init__`: validates the embeddings, then
(unconditionally, before the distance is even parsed) applies
`utils.normalize`, stores the result as `_emb`, and computes `_bounds` from
the normalized matrix. The `distance` argument is taken already parsed into
the enum, so the string-parsing failure path of `Distance(distance)` is out
of frame here. -/
noncomputable def HnswlibIndex.init (embeddings : List (List ℝ))
    (distance : Distance) (threads : Int) : Except Err HnswlibIndex :=
  if validEmbeddings embeddings = true then
    match normalize embeddings with
    | .error e => .error e
    | .ok emb => .ok ⟨emb, distance, boundaries emb, threads⟩
  else .error .invalidEmbedding

/-- Embedding of `HnswlibIndex.dims`: `self._emb.shape[1]`. -/
def HnswlibIndex.dims (idx : HnswlibIndex) : Nat :=
  (idx.emb.headD []).length

/-- The index that `HnswlibIndex.init [[3, 4]] Distance.L2 (-1)` constructs:
the row has been rescaled to unit norm even though the metric is
EUCLIDEAN. -/
noncomputable def idxE : HnswlibIndex :=
  ⟨[[3 / 5, 4 / 5]], Distance.L2, [[3 / 5, 3 / 5], [4 / 5, 4 / 5]], -1⟩

/-- Embedding of `RemainingSteps.__init__`
(src/bocoel/core/optim/utils.py, lines 12-26): a single integer counter. -/
structure RemainingSteps where
  count : Int

/-- Embedding of `RemainingSteps.step`: `self._count -= 1`. -/
def RemainingSteps.step (r : RemainingSteps) : RemainingSteps :=
  ⟨r.count - 1⟩

/-- Embedding of `RemainingSteps.done`: `return self._count == 0`. -/
def RemainingSteps.done (r : RemainingSteps) : Bool :=
  r.count == 0

/-- Iteration of `n` successive `step()` calls. -/
def RemainingSteps.stepN (r : RemainingSteps) : Nat → RemainingSteps
  | 0 => r
  | n + 1 => (r.stepN n).step

/-- The record-store capability: column-keyed read access over rows. The
concrete storage backends are external collaborators; this core only reads
columns and row count. -/
structure Storage where
  cols : String → List String
  nrows : Nat

/-- The parallel row-index / distance sequences one search call returns. -/
structure SearchResult where
  indices : List Nat
  distances : List ℝ

/-- Modelled from the spec: `StatefulIndex` is not among the provided
sources; it wraps one index by ownership and keeps an append-only history of
(query, SearchResult) pairs, empty at construction. Generic in the wrapped
index type, as `composed.py` is generic in `index_backend`. -/
structure StatefulIndexOf (I : Type) where
  index : I
  history : List (List ℝ × SearchResult)

/-- Embedding of `ComposedCorpus`
(src/bocoel/corpora/corpora/composed.py): a frozen pairing of one
StatefulIndex and one record store. -/
structure ComposedCorpus (I : Type) where
  index : StatefulIndexOf I
  storage : Storage

/-- Embedding of `ComposedCorpus.index_embeddings` (composed.py lines
96-110): builds the index from the embeddings via the backend constructor,
wraps it as a StatefulIndex, and pairs it with the storage. The body
performs no validation of its own; it fails exactly when the backend
constructor does. -/
def ComposedCorpus.index_embeddings {I : Type} (storage : Storage)
    (embeddings : List (List ℝ)) (index_backend : List (List ℝ) → Except Err I) :
    Except Err (ComposedCorpus I) :=
  match index_backend embeddings with
  | .error e => .error e
  | .ok index => .ok ⟨⟨index, []⟩, storage⟩

/-- A two-row storage with no columns, used to exhibit a row-count
mismatch. -/
def storageTwoRows : Storage :=
  ⟨fun _ => [], 2⟩

/-- The view of a corpus that `check_bounds` consumes: the wrapped index's
declared dimensionality and bounds array. A 2-D numpy array of shape (r, 2)
is modelled as a list of rows; `ndim != 2 or shape[1] != 2` holds exactly
when some row does not have length 2 (a ragged nested sequence is not a 2-D
array). -/
structure CorpusBoundsView where
  dims : Nat
  bounds : List (List ℝ)

open Classical in
/-- Embedding of `check_bounds` (src/bocoel/core/optim/utils.py, lines
29-37): rejects when the bounds array is not 2-D with second dimension 2,
or when `lower > upper` at some dimension. The index's `dims` field is
never consulted. -/
noncomputable def check_bounds (corpus : CorpusBoundsView) : Except Err Unit :=
  if ¬ (∀ row ∈ corpus.bounds, row.length = 2) then
    .error (.valueError msgBoundInvalid)
  else if ∃ row ∈ corpus.bounds, row.getD 1 0 < row.getD 0 0 then
    .error (.valueError msgLowerUpper)
  else .ok ()

/-- A corpus whose index declares dimensionality 3 but exposes a 4×2 bounds
array. -/
def corpusDims3Bounds4 : CorpusBoundsView :=
  ⟨3, [[0, 1], [0, 1], [0, 1], [0, 1]]⟩

/-- The index capability `evaluate_index` consumes: one search operation
over a query vector and a neighbour count `k`. -/
structure IndexF where
  search : List ℝ → Nat → SearchResult

/-- The evaluation-bridge output: a pair of the SearchResult and the scalar
the scoring function produced. -/
structure State where
  result : SearchResult
  evaluation : ℝ

/-- The log of search invocations issued against the index, threaded
explicitly to make the source's single effectful operation observable. Each
entry records the query and the `k` passed. -/
abbrev SearchLog := List (List ℝ × Nat)

/-- Embedding of `evaluate_index` (src/bocoel/core/optim/utils.py, lines
41-46): `result = index.search(query, k=1)`, then
`evaluation = evaluate_fn(result)`, returning
`State(result=result, evaluation=evaluation)`. The search-call log is the
explicit rendering of the one effect the body performs. -/
def evaluate_index (query : List ℝ) (index : IndexF)
    (evaluate_fn : SearchResult → ℝ) (log : SearchLog) : State × SearchLog :=
  let result := index.search query 1
  let log := log ++ [(query, 1)]
  let evaluation := evaluate_fn result
  (⟨result, evaluation⟩, log)

/-- Semantics of numpy's `ndarray.item()`: succeeds iff the array holds
exactly one element, and raises `ValueError` otherwise. -/
def npItem (xs : List Nat) : Except Err Nat :=
  match xs with
  | [x] => .ok x
  | _ => .error (.valueError msgItem)

/-- The evaluator capability: given a record store and row identifiers,
return one scalar per identifier. -/
abbrev Evaluator := Storage → List Nat → List ℝ

/-- Modelled from the spec: `bocoel.models.utils.evaluate_on_corpus` is not
among the provided sources; per the spec it invokes the evaluator against
the corpus (its record store) restricted to the given row identifiers,
returning their scalar scores in order. -/
def evaluate_on_corpus {I : Type} (evaluator : Evaluator)
    (corpus : ComposedCorpus I) (indices : List Nat) : List ℝ :=
  evaluator corpus.storage indices

/-- Embedding of `evaluate_corpus_fn` (src/bocoel/core/optim/utils.py,
lines 49-58): the closure over `corpus` and `evaluator` that extracts the
single matched row identifier via `result.indices.item()` and returns
element 0 of `evaluate_on_corpus` on that one row (`[0]` on an empty
sequence raising `IndexError`, rendered as the error case of the final
match). -/
def evaluate_corpus_fn {I : Type} (corpus : ComposedCorpus I)
    (evaluator : Evaluator) : SearchResult → Except Err ℝ :=
  fun result =>
    match npItem result.indices with
    | .error e => .error e
    | .ok i =>
      match evaluate_on_corpus evaluator corpus [i] with
      | [] => .error (.valueError msgIndexZero)
      | x :: _ => .ok x

/-- A minimal concrete corpus over the unit index type. -/
def corpusUnit : ComposedCorpus Unit :=
  ⟨⟨(), []⟩, ⟨fun _ => [], 0⟩⟩

/-- An evaluator scoring every requested row with 7. -/
def evaluatorConst7 : Evaluator :=
  fun _ ids => ids.map fun _ => (7 : ℝ)

/-- Semantics of Python's `zip(*data)`, row count: the minimum of the
argument lengths (`zip()` of no iterables produces nothing). -/
def pyZipLen {α : Type} (ls : List (List α)) : Nat :=
  match ls with
  | [] => 0
  | l :: rest => (rest.map List.length).foldl min l.length

/-- Semantics of Python's `zip(*data)` over the row-major transpose: row `i`
collects the `i`-th element of every argument, for `i` below every
argument's length. -/
def pyZip {α : Type} (ls : List (List α)) : List (List α) :=
  (List.range (pyZipLen ls)).map fun i => ls.filterMap fun l => l.get? i

/-- The default `concat` of `ComposedCorpus.index_storage`:
`" [SEP] ".join`. -/
def sepJoin (l : List String) : String :=
  String.intercalate sepToken l

/-- The `transform` closure built inside `ComposedCorpus.index_storage`
(composed.py lines 61-63): `data = [mapping[k] for k in keys]` and then
`[concat(datum) for datum in zip(*data)]`. -/
def indexStorageTransform (keys : List String)
    (concat : List String → String) (mapping : String → List String) :
    List String :=
  (pyZip (keys.map mapping)).map concat

/-- The two-column store of the C8 example: column "a" holds "x", column
"b" holds "y". -/
def mapXY : String → List String :=
  fun k => if k = "a" then ["x"] else ["y"]

/-- Embedding of `BigBenchMultipleChoice.numeric_choices`
(src/bocoel/models/adaptors/bigbench/multi.py): the generated prompt with
the choices numbered from 1. -/
def numeric_choices (question : String) (choices : List String) : String :=
  question ++ selectFromStr ++
    String.intercalate newlineStr
      (choices.enum.map fun p => toString (p.1 + 1) ++ ") " ++ p.2)

/-- Semantics of Python's `max(...)` over a sequence of naturals:
`ValueError` on an empty sequence. -/
def pyMax (xs : List Nat) : Except Err Nat :=
  match xs with
  | [] => .error (.valueError msgMaxEmpty)
  | x :: rest => .ok (rest.foldl max x)

/-- Semantics of Python's `min(...)` over a sequence of naturals:
`ValueError` on an empty sequence. -/
def pyMin (xs : List Nat) : Except Err Nat :=
  match xs with
  | [] => .error (.valueError msgMinEmpty)
  | x :: rest => .ok (rest.foldl min x)

/-- Accumulator loop behind numpy's `argmax`: keeps the first index of the
running maximum. -/
def argmaxAux (best : ℚ) (bestIdx : Nat) (i : Nat) : List ℚ → Nat
  | [] => bestIdx
  | v :: rest =>
    if best < v then argmaxAux v i (i + 1) rest
    else argmaxAux best bestIdx (i + 1) rest

/-- Semantics of numpy's `argmax` over one row: index of the first
occurrence of the maximum (0 on an empty array, which the call sites
exclude). -/
def npArgmax : List ℚ → Nat
  | [] => 0
  | x :: rest => argmaxAux x 0 1 rest

/-- The language-model capability: token encoding and per-prompt logits of
shape batch × sequence × vocabulary. -/
structure LM where
  encodeTokens : List String → List Nat
  logits : List String → List (List (List ℚ))

/-- One call issued to the language model. -/
inductive LMCall
  | encodeTokens (tokens : List String)
  | logits (prompts : List String)
deriving DecidableEq

/-- Embedding of `BigBenchMultipleChoice._evaluate_batch` (multi.py lines
77-125): builds the numeric-choice prompts, computes the maximum and
minimum number of choices across the score rows, raises `ValueError` when
the maximum is zero or when maximum and minimum differ, and only then
queries the language model (`encode_tokens`, then `logits`), selects the
last-position logits of the digit tokens, takes the per-row argmax and
scores each row with the configured score function. The second component
lists the LM calls issued. -/
def evaluate_batch (score_fn : Nat → List ℚ → ℚ) (inputs : List String)
    (multiple_choice_targets : List (List String))
    (multiple_choice_scores : List (List ℚ)) (lm : LM) :
    Except Err (List ℚ) × List LMCall :=
  let prompts := (inputs.zip multiple_choice_targets).map fun p =>
    numeric_choices p.1 p.2
  match pyMax (multiple_choice_scores.map List.length),
      pyMin (multiple_choice_scores.map List.length) with
  | .error e, _ => (.error e, [])
  | .ok _, .error e => (.error e, [])
  | .ok maxChoices, .ok minChoices =>
    if maxChoices = 0 then
      (.error (.valueError msgScoresEmpty), [])
    else if maxChoices ≠ minChoices then
      (.error (.valueError msgSameChoices), [])
    else
      let tokens := (List.range maxChoices).map fun i => toString (i + 1)
      let encodedTokens := lm.encodeTokens tokens
      let logitsLast := (lm.logits prompts).map fun seq => seq.getLastD []
      let selected := logitsLast.map fun row =>
        encodedTokens.map fun t => row.getD t 0
      let chosen := selected.map npArgmax
      (.ok ((chosen.zip multiple_choice_scores).map fun p => score_fn p.1 p.2),
       [LMCall.encodeTokens tokens, LMCall.logits prompts])

/-- A concrete ragged batch: rows of lengths 1 and 2. -/
def raggedScores : List (List ℚ) :=
  [[1], [2, 3]]

/-- A concrete well-formed batch: one row with two choices. -/
def goodScores : List (List ℚ) :=
  [[1, 0]]

/-- A concrete language model: every token encodes to id 0, and every
prompt yields one position of vocabulary logits `[2, 1, 0]`. -/
def lmConst : LM :=
  ⟨fun tokens => tokens.map fun _ => 0,
   fun prompts => prompts.map fun _ => [[2, 1, 0]]⟩

/-- The question batch used in the C10 witness. -/
def inputsQ : List String := ["q"]

/-- The choice-target batch used in the C10 witness. -/
def targetsAB : List (List String) := [["A", "B"]]

/-! ## Theorems -/

theorem HnswlibIndex.init_ok_iff (embeddings : List (List ℝ))
    (distance : Distance) (threads : Int) (idx : HnswlibIndex) :
    HnswlibIndex.init embeddings distance threads = .ok idx ↔
      validEmbeddings embeddings = true ∧
      (¬ ∃ r ∈ embeddings, rowNorm r = 0) ∧
      idx = ⟨embeddings.map normalizeRow, distance,
             boundaries (embeddings.map normalizeRow), threads⟩ := by
  unfold HnswlibIndex.init normalize
  by_cases hv : validEmbeddings embeddings = true
  · rw [if_pos hv]
    by_cases hz : ∃ r ∈ embeddings, rowNorm r = 0
    · rw [if_pos hz]
      simp [hv, hz]
    · rw [if_neg hz]
      simp only [hv, hz, not_false_iff, true_and]
      constructor
      · intro h
        exact (Except.ok.injEq _ _ ▸ congrArg id h).symm ▸ rfl
      · intro h
        rw [h]
  · rw [if_neg hv]
    simp [hv]

theorem sumSq_nonneg (r : List ℝ) : 0 ≤ (r.map fun x => x ^ 2).sum := by
  apply List.sum_nonneg
  intro x hx
  obtain ⟨y, _, rfl⟩ := List.mem_map.mp hx
  positivity

theorem rowNorm_nonneg (r : List ℝ) : 0 ≤ rowNorm r :=
  Real.sqrt_nonneg _

theorem rowNorm_normalizeRow (r : List ℝ) (h : rowNorm r ≠ 0) :
    rowNorm (normalizeRow r) = 1 := by
  have hS : ((r.map fun x => x ^ 2).sum) = rowNorm r ^ 2 :=
    (Real.sq_sqrt (sumSq_nonneg r)).symm
  have hn2 : rowNorm r ^ 2 ≠ 0 := pow_ne_zero 2 h
  unfold rowNorm normalizeRow
  rw [List.map_map]
  have hfun : ((fun x => x ^ 2) ∘ fun x => x / rowNorm r) =
      fun x => x ^ 2 * (rowNorm r ^ 2)⁻¹ := by
    funext x
    simp only [Function.comp]
    rw [div_pow, div_eq_mul_inv]
  rw [hfun, List.sum_map_mul_right, ← hS]
  rw [hS, mul_inv_cancel₀ hn2, Real.sqrt_one]

theorem rowNorm_34 : rowNorm [(3 : ℝ), 4] = 5 := by
  unfold rowNorm
  have : (([(3 : ℝ), 4].map fun x => x ^ 2).sum) = 25 := by
    simp
    norm_num
  rw [this, show (25 : ℝ) = 5 ^ 2 by norm_num, Real.sqrt_sq (by norm_num)]

theorem normalizeRow_34 : normalizeRow [(3 : ℝ), 4] = [3 / 5, 4 / 5] := by
  unfold normalizeRow
  rw [rowNorm_34]
  simp

theorem foldl_min_le_start {α : Type} [LinearOrder α] (xs : List α) (x : α) :
    xs.foldl min x ≤ x := by
  induction xs generalizing x with
  | nil => exact le_refl x
  | cons a l ih => exact le_trans (ih (min x a)) (min_le_left x a)

theorem foldl_min_le_mem {α : Type} [LinearOrder α] (xs : List α) (x : α) :
    ∀ y ∈ xs, xs.foldl min x ≤ y := by
  induction xs generalizing x with
  | nil => intro y hy; exact absurd hy (List.not_mem_nil y)
  | cons a l ih =>
    intro y hy
    rcases List.mem_cons.mp hy with rfl | hy
    · exact le_trans (foldl_min_le_start l (min x y)) (min_le_right x y)
    · exact ih (min x a) y hy

theorem start_le_foldl_max {α : Type} [LinearOrder α] (xs : List α) (x : α) :
    x ≤ xs.foldl max x := by
  induction xs generalizing x with
  | nil => exact le_refl x
  | cons a l ih => exact le_trans (le_max_left x a) (ih (max x a))

theorem mem_le_foldl_max {α : Type} [LinearOrder α] (xs : List α) (x : α) :
    ∀ y ∈ xs, y ≤ xs.foldl max x := by
  induction xs generalizing x with
  | nil => intro y hy; exact absurd hy (List.not_mem_nil y)
  | cons a l ih =>
    intro y hy
    rcases List.mem_cons.mp hy with rfl | hy
    · exact le_trans (le_max_right x y) (start_le_foldl_max l (max x y))
    · exact ih (max x a) y hy

theorem foldl_min_start_or_mem {α : Type} [LinearOrder α] (xs : List α)
    (x : α) : xs.foldl min x = x ∨ xs.foldl min x ∈ xs := by
  induction xs generalizing x with
  | nil => exact Or.inl rfl
  | cons a l ih =>
    rcases ih (min x a) with h | h
    · rcases min_cases x a with ⟨hm, -⟩ | ⟨hm, -⟩
      · exact Or.inl (by rw [List.foldl_cons, h, hm])
      · exact Or.inr (by rw [List.foldl_cons, h, hm]; exact List.mem_cons_self a l)
    · exact Or.inr (List.mem_cons_of_mem a h)

theorem listMin_le_listMax (xs : List ℝ) (hxs : xs ≠ []) :
    listMin xs ≤ listMax xs := by
  match xs with
  | [] => exact absurd rfl hxs
  | x :: l =>
    unfold listMin listMax
    exact le_trans (foldl_min_le_start l x) (start_le_foldl_max l x)

theorem boundaries_34 :
    boundaries [[(3 : ℝ) / 5, 4 / 5]] = [[3 / 5, 3 / 5], [4 / 5, 4 / 5]] := by
  unfold boundaries column listMin listMax
  have h2 : List.range 2 = [0, 1] := rfl
  simp only [List.headD, List.length_cons, List.length_nil]
  rw [show (0 : ℕ) + 1 + 1 = 2 by norm_num, h2]
  simp [List.getD]

theorem init_34 :
    HnswlibIndex.init [[(3 : ℝ), 4]] Distance.L2 (-1) = .ok idxE := by
  rw [HnswlibIndex.init_ok_iff]
  refine ⟨by decide, ?_, ?_⟩
  · rintro ⟨r, hr, h0⟩
    simp only [List.mem_singleton] at hr
    rw [hr, rowNorm_34] at h0
    norm_num at h0
  · unfold idxE
    have hm : [[(3 : ℝ), 4]].map normalizeRow = [[3 / 5, 4 / 5]] := by
      simp [normalizeRow_34]
    rw [hm, boundaries_34]

/-- C2 is *corrected*: `HnswlibIndex.__init__` (hnswlib.py line 24) applies
`utils.normalize` unconditionally, before the distance is even parsed, so
rescaling is not conditioned on `requires_normalization`. Amended claim: for
every accepted embedding matrix, under either metric, the stored embeddings
are the input rows rescaled to unit L2 norm (so they equal the input only
when every row already has unit norm). -/
theorem hnswlib_normalizes_unconditionally (embeddings : List (List ℝ))
    (distance : Distance) (threads : Int) (idx : HnswlibIndex)
    (h : HnswlibIndex.init embeddings distance threads = .ok idx) :
    idx.emb = embeddings.map normalizeRow ∧
    ∀ r ∈ idx.emb, rowNorm r = 1 := by
  rw [HnswlibIndex.init_ok_iff] at h
  obtain ⟨-, hz, rfl⟩ := h
  refine ⟨rfl, ?_⟩
  intro r hr
  obtain ⟨s, hs, rfl⟩ := List.mem_map.mp hr
  exact rowNorm_normalizeRow s fun h0 => hz ⟨s, hs, h0⟩

/-- C2 counterexample: under EUCLIDEAN (`Distance.L2`) the constructed index
stores `[[3/5, 4/5]]`, not the unrescaled input `[[3, 4]]`, refuting "under
EUCLIDEAN the embeddings stored by the constructed index equal the input
matrix unrescaled". -/
theorem hnswlib_c2_counterexample :
    HnswlibIndex.init [[(3 : ℝ), 4]] Distance.L2 (-1) = .ok idxE ∧
    idxE.emb ≠ [[(3 : ℝ), 4]] := by
  refine ⟨init_34, fun h => ?_⟩
  have h35 : ((3 : ℝ) / 5) = 3 := by
    have := congrArg (fun l => (l.headD []).headD 0) h
    simpa [idxE] using this
  norm_num at h35

/-- C2 witness for the amended claim at the concrete input `[[3, 4]]`. -/
theorem hnswlib_normalizes_unconditionally_witness :
    HnswlibIndex.init [[(3 : ℝ), 4]] Distance.L2 (-1) = .ok idxE ∧
    idxE.emb = [[(3 : ℝ), 4]].map normalizeRow ∧
    ∀ r ∈ idxE.emb, rowNorm r = 1 :=
  ⟨init_34, hnswlib_normalizes_unconditionally [[(3 : ℝ), 4]] Distance.L2
    (-1) idxE init_34⟩

/-- C9: for every embedding matrix accepted by index construction, under
either metric, the computed bounds form a D×2 structure (D the embedding
column count) with lower ≤ upper on every dimension. -/
theorem hnswlib_bounds_wellformed (embeddings : List (List ℝ))
    (distance : Distance) (threads : Int) (idx : HnswlibIndex)
    (h : HnswlibIndex.init embeddings distance threads = .ok idx) :
    idx.bounds.length = idx.dims ∧
    idx.dims = (embeddings.headD []).length ∧
    ∀ b ∈ idx.bounds, b.length = 2 ∧ b.getD 0 0 ≤ b.getD 1 0 := by
  rw [HnswlibIndex.init_ok_iff] at h
  obtain ⟨hv, -, rfl⟩ := h
  have hne : embeddings ≠ [] := by
    intro h0
    rw [h0] at hv
    simp [validEmbeddings] at hv
  obtain ⟨a, l, rfl⟩ := List.exists_cons_of_ne_nil hne
  refine ⟨?_, ?_, ?_⟩
  · simp [HnswlibIndex.dims, boundaries]
  · simp [HnswlibIndex.dims, normalizeRow]
  · intro b hb
    simp only [boundaries, List.mem_map, List.mem_range] at hb
    obtain ⟨j, -, rfl⟩ := hb
    refine ⟨rfl, ?_⟩
    simp only [List.getD]
    have hcol : column ((a :: l).map normalizeRow) j ≠ [] := by
      simp [column]
    simpa [List.getD] using listMin_le_listMax _ hcol

/-- C9 witness at the concrete input `[[3, 4]]`. -/
theorem hnswlib_bounds_wellformed_witness :
    HnswlibIndex.init [[(3 : ℝ), 4]] Distance.L2 (-1) = .ok idxE ∧
    idxE.bounds.length = idxE.dims ∧
    idxE.dims = ([[(3 : ℝ), 4]].headD []).length ∧
    ∀ b ∈ idxE.bounds, b.length = 2 ∧ b.getD 0 0 ≤ b.getD 1 0 :=
  ⟨init_34, hnswlib_bounds_wellformed [[(3 : ℝ), 4]] Distance.L2
    (-1) idxE init_34⟩

theorem RemainingSteps.count_stepN (c : Int) (n : Nat) :
    ((RemainingSteps.mk c).stepN n).count = c - n := by
  induction n with
  | zero => simp [RemainingSteps.stepN]
  | succ n ih =>
    simp only [RemainingSteps.stepN, RemainingSteps.step, ih]
    push_cast
    ring

/-- C3: for `RemainingSteps(3)`, `done` is false before any step, true after
exactly 3 steps, false again after a 4th; in general each `step()` call
decrements the counter by exactly one and `done` holds iff the counter is
exactly zero. -/
theorem remaining_steps_c3 :
    ((RemainingSteps.mk 3).stepN 0).done = false ∧
    ((RemainingSteps.mk 3).stepN 3).done = true ∧
    ((RemainingSteps.mk 3).stepN 4).done = false ∧
    (∀ (r : RemainingSteps), r.step.count = r.count - 1) ∧
    (∀ (c : Int) (n : Nat),
      ((RemainingSteps.mk c).stepN n).count = c - n ∧
      (((RemainingSteps.mk c).stepN n).done = true ↔ c - n = 0)) := by
  refine ⟨by decide, by decide, by decide, fun r => rfl, fun c n => ?_⟩
  refine ⟨RemainingSteps.count_stepN c n, ?_⟩
  rw [RemainingSteps.done, RemainingSteps.count_stepN c n]
  exact beq_iff_eq

/-- C4: a `RemainingSteps` initialised with a negative count never reports
`done`, no matter how many `step()` calls are made. -/
theorem remaining_steps_c4 (c : Int) (hc : c < 0) (n : Nat) :
    ((RemainingSteps.mk c).stepN n).done = false := by
  rw [RemainingSteps.done, RemainingSteps.count_stepN c n]
  have : c - (n : Int) < 0 := by
    have hn : (0 : Int) ≤ n := Int.natCast_nonneg n
    omega
  simp only [beq_eq_false_iff_ne, ne_eq]
  omega

/-- C4 witness at a concrete input: counter `-1`, five steps taken. -/
theorem remaining_steps_c4_witness :
    (-1 : Int) < 0 ∧ ((RemainingSteps.mk (-1)).stepN 5).done = false :=
  ⟨by decide, remaining_steps_c4 (-1) (by decide) 5⟩

/-- C1 is *corrected*: `index_embeddings` never compares the embedding row
count with the record store's row count and raises no
`RowCountMismatchError` (no such check exists in composed.py). Amended
claim: whenever the index backend accepts the embedding matrix, construction
succeeds and pairs the built StatefulIndex with the store, regardless of
whether the row counts agree. -/
theorem index_embeddings_no_row_check {I : Type} (storage : Storage)
    (embeddings : List (List ℝ)) (index_backend : List (List ℝ) → Except Err I)
    (idx : I) (h : index_backend embeddings = .ok idx) :
    ComposedCorpus.index_embeddings storage embeddings index_backend =
      .ok ⟨⟨idx, []⟩, storage⟩ := by
  unfold ComposedCorpus.index_embeddings
  rw [h]

/-- C1 counterexample: a one-row embedding matrix paired with a two-row
store. The claim says construction fails with `RowCountMismatchError`;
instead it succeeds (the code has no row-count check). -/
theorem index_embeddings_c1_counterexample :
    (1 : Nat) ≠ storageTwoRows.nrows ∧
    ComposedCorpus.index_embeddings storageTwoRows [[(3 : ℝ), 4]]
        (fun e => HnswlibIndex.init e Distance.L2 (-1)) =
      .ok ⟨⟨idxE, []⟩, storageTwoRows⟩ := by
  refine ⟨by decide, ?_⟩
  simp only [ComposedCorpus.index_embeddings]
  rw [init_34]

/-- C1 witness for the amended claim, at the same concrete input. -/
theorem index_embeddings_no_row_check_witness :
    HnswlibIndex.init [[(3 : ℝ), 4]] Distance.L2 (-1) = .ok idxE ∧
    ComposedCorpus.index_embeddings storageTwoRows [[(3 : ℝ), 4]]
        (fun e => HnswlibIndex.init e Distance.L2 (-1)) =
      .ok ⟨⟨idxE, []⟩, storageTwoRows⟩ :=
  ⟨init_34, index_embeddings_no_row_check storageTwoRows [[(3 : ℝ), 4]]
    (fun e => HnswlibIndex.init e Distance.L2 (-1)) idxE init_34⟩

/-- C5 (amended): `check_bounds` returns normally iff every row of the
bounds array has length 2 and no dimension has lower > upper; the row count
is never compared with the index's dimensionality `D`, contrary to the
claim's "exactly a D×2 structure". -/
theorem check_bounds_ok_iff (corpus : CorpusBoundsView) :
    check_bounds corpus = .ok () ↔
      (∀ row ∈ corpus.bounds, row.length = 2) ∧
      ∀ row ∈ corpus.bounds, row.getD 0 0 ≤ row.getD 1 0 := by
  unfold check_bounds
  by_cases h1 : ∀ row ∈ corpus.bounds, row.length = 2
  · rw [if_neg (not_not_intro h1)]
    by_cases h2 : ∃ row ∈ corpus.bounds, row.getD 1 0 < row.getD 0 0
    · rw [if_pos h2]
      obtain ⟨row, hrow, hlt⟩ := h2
      simp only [reduceCtorEq, false_iff, not_and]
      intro _ hall
      exact absurd (hall row hrow) (not_le.mpr hlt)
    · rw [if_neg h2]
      constructor
      · intro _
        exact ⟨h1, fun row hrow => not_lt.mp fun hlt => h2 ⟨row, hrow, hlt⟩⟩
      · intro _
        rfl
  · rw [if_pos h1]
    simp only [reduceCtorEq, false_iff, not_and]
    intro hall
    exact absurd hall h1

/-- C5 counterexample: the bounds array has 4 rows while the index's
dimensionality is 3, so it is not "exactly a D×2 structure", yet
`check_bounds` returns normally — refuting the claim's "fails ... if and
only if". -/
theorem check_bounds_c5_counterexample :
    corpusDims3Bounds4.bounds.length ≠ corpusDims3Bounds4.dims ∧
    check_bounds corpusDims3Bounds4 = .ok () := by
  refine ⟨by decide, ?_⟩
  rw [check_bounds_ok_iff]
  have hmem : ∀ row ∈ corpusDims3Bounds4.bounds, row = [(0 : ℝ), 1] := by
    intro row hrow
    simp only [corpusDims3Bounds4, List.mem_cons, List.not_mem_nil,
      or_false] at hrow
    rcases hrow with rfl | rfl | rfl | rfl <;> rfl
  constructor
  · intro row hrow
    rw [hmem row hrow]
    rfl
  · intro row hrow
    rw [hmem row hrow]
    simp only [List.getD]
    norm_num

/-- C6: `evaluate_index` performs exactly one search, with k = 1, against
the given index; the returned State pairs that SearchResult with the scalar
`evaluate_fn` produces on it; and the State is independent of any prior
search history (no memory across calls). -/
theorem evaluate_index_spec (query : List ℝ) (index : IndexF)
    (evaluate_fn : SearchResult → ℝ) (log : SearchLog) :
    (evaluate_index query index evaluate_fn log).2 = log ++ [(query, 1)] ∧
    (evaluate_index query index evaluate_fn log).1.result =
      index.search query 1 ∧
    (evaluate_index query index evaluate_fn log).1.evaluation =
      evaluate_fn ((evaluate_index query index evaluate_fn log).1.result) ∧
    ∀ log₂ : SearchLog, (evaluate_index query index evaluate_fn log₂).1 =
      (evaluate_index query index evaluate_fn log).1 :=
  ⟨rfl, rfl, rfl, fun _ => rfl⟩

/-- C7: the closure returned by `evaluate_corpus_fn` fails when the
SearchResult does not contain exactly one matched entry, and on a singleton
SearchResult invokes the evaluator on the corpus restricted to that single
row identifier, returning that row's scalar score. -/
theorem evaluate_corpus_fn_spec {I : Type} (corpus : ComposedCorpus I)
    (evaluator : Evaluator) (result : SearchResult) :
    (result.indices.length ≠ 1 →
      ∃ msg, evaluate_corpus_fn corpus evaluator result =
        .error (.valueError msg)) ∧
    ∀ i s, result.indices = [i] →
      evaluate_on_corpus evaluator corpus [i] = [s] →
      evaluate_corpus_fn corpus evaluator result = .ok s := by
  constructor
  · intro hlen
    unfold evaluate_corpus_fn npItem
    match h : result.indices with
    | [] => exact ⟨_, rfl⟩
    | [x] =>
      rw [h] at hlen
      exact absurd rfl hlen
    | x :: y :: rest => exact ⟨_, rfl⟩
  · intro i s hi hs
    unfold evaluate_corpus_fn npItem
    rw [hi]
    simp only []
    rw [hs]

/-- C7 witness: an empty SearchResult fails; the singleton SearchResult
`[5]` scores to the evaluator's value for row 5. -/
theorem evaluate_corpus_fn_spec_witness :
    ((SearchResult.mk [] []).indices.length ≠ 1 ∧
      ∃ msg, evaluate_corpus_fn corpusUnit evaluatorConst7 ⟨[], []⟩ =
        .error (.valueError msg)) ∧
    ((SearchResult.mk [5] []).indices = [5] ∧
      evaluate_on_corpus evaluatorConst7 corpusUnit [5] = [(7 : ℝ)] ∧
      evaluate_corpus_fn corpusUnit evaluatorConst7 ⟨[5], []⟩ = .ok 7) :=
  ⟨⟨by decide,
    (evaluate_corpus_fn_spec corpusUnit evaluatorConst7 ⟨[], []⟩).1
      (by decide)⟩,
   ⟨rfl, rfl,
    (evaluate_corpus_fn_spec corpusUnit evaluatorConst7 ⟨[5], []⟩).2 5 7
      rfl rfl⟩⟩

theorem lt_pyZipLen {α : Type} (ls : List (List α)) (i : Nat)
    (h : i < pyZipLen ls) : ∀ l ∈ ls, i < l.length := by
  intro l hl
  match ls, hl with
  | l₀ :: rest, hl =>
    unfold pyZipLen at h
    rcases List.mem_cons.mp hl with rfl | hmem
    · exact lt_of_lt_of_le h (foldl_min_le_start _ _)
    · exact lt_of_lt_of_le h
        (foldl_min_le_mem _ _ _ (List.mem_map_of_mem List.length hmem))

theorem filterMap_get_eq_map_getD {α : Type} (ls : List (List α)) (i : Nat)
    (d : α) (h : ∀ l ∈ ls, i < l.length) :
    (ls.filterMap fun l => l.get? i) = ls.map fun l => l.getD i d := by
  induction ls with
  | nil => rfl
  | cons a tl ih =>
    have ha : i < a.length := h a (List.mem_cons_self a tl)
    have hsome : a.get? i = some (a.getD i d) := by
      cases hg : a.get? i with
      | none => exact absurd (List.get?_eq_none.mp hg) (not_le.mpr ha)
      | some v => rw [List.getD_eq_get?, hg]; rfl
    rw [List.filterMap_cons, hsome, List.map_cons,
      ih fun l hl => h l (List.mem_cons_of_mem a hl)]

/-- C8: with the default join, the transform built by
`ComposedCorpus.index_storage` maps row `i` of the store to the values of
the named columns at row `i`, in the caller-supplied key order, joined with
`" [SEP] "` — and row order is preserved (row `i` of the output comes from
row `i` of every column). -/
theorem index_storage_transform_spec (keys : List String)
    (mapping : String → List String) (i : Nat) (hkeys : keys ≠ [])
    (hi : ∀ k ∈ keys, i < (mapping k).length) :
    (indexStorageTransform keys sepJoin mapping).get? i =
      some (String.intercalate sepToken
        (keys.map fun k => (mapping k).getD i emptyStr)) := by
  have hall : ∀ l ∈ keys.map mapping, i < l.length := by
    intro l hl
    obtain ⟨k, hk, rfl⟩ := List.mem_map.mp hl
    exact hi k hk
  have hlen : i < pyZipLen (keys.map mapping) := by
    match keys, hkeys with
    | k₀ :: ktl, _ =>
      unfold pyZipLen
      simp only [List.map_cons]
      rcases foldl_min_start_or_mem ((ktl.map mapping).map List.length)
          (mapping k₀).length with h | h
      · rw [h]
        exact hi k₀ (List.mem_cons_self k₀ ktl)
      · obtain ⟨l, hl, hlv⟩ := List.mem_map.mp h
        obtain ⟨k, hk, rfl⟩ := List.mem_map.mp hl
        rw [← hlv]
        exact hi k (List.mem_cons_of_mem k₀ hk)
  unfold indexStorageTransform pyZip
  rw [List.get?_map, List.get?_map, List.get?_range hlen]
  simp only [Option.map_some']
  rw [filterMap_get_eq_map_getD (keys.map mapping) i emptyStr hall,
    List.map_map]
  rfl

/-- C8 witness: columns "a" and "b" with row values "x" and "y" produce the
embedded string "x [SEP] y". -/
theorem index_storage_transform_spec_witness :
    (["a", "b"] ≠ ([] : List String)) ∧
    (∀ k ∈ ["a", "b"], 0 < (mapXY k).length) ∧
    (indexStorageTransform ["a", "b"] sepJoin mapXY).get? 0 =
      some xSepY :=
  ⟨by decide, by decide,
    (index_storage_transform_spec ["a", "b"] mapXY 0 (by decide)
      (by decide)).trans (by rfl)⟩

/-- C10: on a non-empty batch whose score rows do not all share the same
positive length, `_evaluate_batch` raises `ValueError` without issuing any
language-model call; and the language model is queried only when every
score row has the same positive number of choices. -/
theorem evaluate_batch_guards (score_fn : Nat → List ℚ → ℚ)
    (inputs : List String) (targets : List (List String))
    (scores : List (List ℚ)) (lm : LM) :
    (scores ≠ [] →
      (¬ ∃ n, 0 < n ∧ ∀ s ∈ scores, s.length = n) →
      ∃ msg,
        (evaluate_batch score_fn inputs targets scores lm).1 =
          .error (.valueError msg) ∧
        (evaluate_batch score_fn inputs targets scores lm).2 = []) ∧
    ((evaluate_batch score_fn inputs targets scores lm).2 ≠ [] →
      ∃ n, 0 < n ∧ ∀ s ∈ scores, s.length = n) := by
  match scores with
  | [] =>
    refine ⟨fun hne _ => absurd rfl hne, fun hcalls => absurd ?_ hcalls⟩
    rfl
  | s₀ :: stl =>
    simp only [evaluate_batch, List.map_cons, pyMax, pyMin]
    set M := (stl.map List.length).foldl max s₀.length with hM
    set m := (stl.map List.length).foldl min s₀.length with hm
    have hgood : M = m → M ≠ 0 →
        ∃ n, 0 < n ∧ ∀ s ∈ s₀ :: stl, s.length = n := by
      intro hMm hM0
      refine ⟨M, Nat.pos_of_ne_zero hM0, ?_⟩
      intro s hs
      have hle : s.length ≤ M := by
        rcases List.mem_cons.mp hs with rfl | hmem
        · exact start_le_foldl_max _ _
        · exact mem_le_foldl_max _ _ _ (List.mem_map_of_mem List.length hmem)
      have hge : m ≤ s.length := by
        rcases List.mem_cons.mp hs with rfl | hmem
        · exact foldl_min_le_start _ _
        · exact foldl_min_le_mem _ _ _ (List.mem_map_of_mem List.length hmem)
      omega
    by_cases hM0 : M = 0
    · rw [if_pos hM0]
      refine ⟨fun _ _ => ⟨_, rfl, rfl⟩, fun hcalls => absurd rfl hcalls⟩
    · rw [if_neg hM0]
      by_cases hMm : M = m
      · rw [if_neg (not_not_intro hMm)]
        exact ⟨fun _ hbad => absurd (hgood hMm hM0) hbad,
          fun _ => hgood hMm hM0⟩
      · rw [if_pos hMm]
        refine ⟨fun _ _ => ⟨_, rfl, rfl⟩, fun hcalls => absurd rfl hcalls⟩

/-- C10 witness: the ragged batch errors with no LM call; the well-formed
batch does query the LM, and its rows share the positive length 2. -/
theorem evaluate_batch_guards_witness :
    (raggedScores ≠ [] ∧
      (¬ ∃ n, 0 < n ∧ ∀ s ∈ raggedScores, s.length = n) ∧
      ∃ msg,
        (evaluate_batch (fun g s => s.getD g 0) inputsQ targetsAB
            raggedScores lmConst).1 = .error (.valueError msg) ∧
        (evaluate_batch (fun g s => s.getD g 0) inputsQ targetsAB
            raggedScores lmConst).2 = []) ∧
    ((evaluate_batch (fun g s => s.getD g 0) inputsQ targetsAB
        goodScores lmConst).2 ≠ [] ∧
      ∃ n, 0 < n ∧ ∀ s ∈ goodScores, s.length = n) := by
  have hbad : ¬ ∃ n, 0 < n ∧ ∀ s ∈ raggedScores, s.length = n := by
    rintro ⟨n, -, hall⟩
    have h1 := hall [1] (by simp [raggedScores])
    have h2 := hall [2, 3] (by simp [raggedScores])
    simp at h1 h2
    omega
  refine ⟨⟨by decide, hbad, ?_⟩, ?_, ?_⟩
  · exact (evaluate_batch_guards (fun g s => s.getD g 0) inputsQ targetsAB
      raggedScores lmConst).1 (by decide) hbad
  · decide
  · exact (evaluate_batch_guards (fun g s => s.getD g 0) inputsQ targetsAB
      goodScores lmConst).2 (by decide)

end Bocoel
